import Mathlib

/-!
Shallow embedding of the block-synchronization core of the fuel-explorer
repository and a verification of its specified properties.

The embedded code:
* the `Syncer` class and the xstate machine of the sync-blocks worker
  (source file `src/unnamed/part_000`): `getLastBlockHeight`, `getIdsRange`,
  `createBatchEvents`, `syncBlocks`, `syncBlocksRange`, `syncMissingBlocks`,
  the machine states, guards and `assign` actions, and the exported
  queue handler;
* `TransactionRepository.upsertMany`
  (source file `src/packages/graphql/src/domain/Transaction/TransactionRepository.ts`).

Modelling conventions: JavaScript numbers that hold block heights are
modelled as `Nat` (heights are non-negative and no arithmetic here can
overflow or go fractional for the inputs the worker handles; the JS
subtraction `to - from` is only reached with `from ≤ to`, matching `Nat`
subtraction). `undefined`/`null` become `Option`. A thrown exception or a
rejected promise becomes `Except String`. The database and the downstream
queue are a `World` record threaded explicitly; the drizzle transaction
wrapper is modelled by discarding the intermediate world when its body
fails, which is exactly a rollback.
-/

namespace SyncCore

/-- One fetch+persist window, the object literal produced by
`createBatchEvents` (`{ from, to }`). `from` is a reserved word in Lean, so
the field is named `from_`. -/
structure SyncWindow where
  from_ : Nat
  to_ : Nat
deriving DecidableEq, Repr

/-- The `EventsReturn` type of the source: outcome of one range sync,
`{ endCursor: number | undefined; hasBlocks: boolean }`. -/
structure EventsReturn where
  endCursor : Option Nat
  hasBlocks : Bool
deriving DecidableEq, Repr

/-- The machine `Context` of the source. `cursor` is stored already
defaulted (the source defaults an absent cursor to `0` both at machine
initialization and at each destructuring read). `lastBlock` keeps only the
header height of the `GQLBlock | null` value, which is the only attribute
the embedded code reads. `watch` keeps its optional character
(`Boolean(context.watch)` is the read). -/
structure Context where
  cursor : Nat
  offset : Nat
  limit : Nat
  lastBlock : Option Nat
  lastResult : Option EventsReturn := none
  watch : Option Bool := none
deriving DecidableEq, Repr

/-- `Number(ctx.lastBlock?.header.height ?? '0')`. -/
def getLastBlockHeight (ctx : Context) : Nat :=
  ctx.lastBlock.getD 0

/-- `getIdsRange`: `from = cursor`, `to = cursor + limit` clamped to the
last known height (`to > lastHeight ? lastHeight : to`). -/
def getIdsRange (ctx : Context) : SyncWindow :=
  let lastHeight := getLastBlockHeight ctx
  let f := ctx.cursor
  let t := ctx.cursor + ctx.limit
  ⟨f, if t > lastHeight then lastHeight else t⟩

/-- `Math.ceil(diff / offset)` for the `diff` and `offset` of
`createBatchEvents`, extracted as a definition. For natural `diff` and
positive `offset` the ceiling is `(diff + offset - 1) / offset`; a
non-positive JS `diff` yields zero batches exactly as the truncating `Nat`
subtraction inside `getIdsRange`/here does. -/
def numberOfBatches (ctx : Context) : Nat :=
  let idsRange := getIdsRange ctx
  let diff := idsRange.to_ - idsRange.from_
  (diff + ctx.offset - 1) / ctx.offset

/-- The Batch Planner `createBatchEvents`: windows `{from, to}` of size
`offset` starting at the cursor, each `to` clamped to the last known
height. Note the per-window clamp is against `lastHeight`, not against
`cursor + limit`. -/
def createBatchEvents (ctx : Context) : List SyncWindow :=
  let idsRange := getIdsRange ctx
  let lastHeight := getLastBlockHeight ctx
  (List.range (numberOfBatches ctx)).map fun page =>
    let f := idsRange.from_ + page * ctx.offset
    let t := f + ctx.offset
    ⟨f, if t > lastHeight then lastHeight else t⟩

/-- Database plus downstream queue, the mutable outside world of the range
syncer. `dbBlocks` is the block table in insertion order (entries are
`Option` because the generated-SDK block array may contain nulls, which
`blocks.filter(Boolean)` strips before enqueueing); `queueItems` is the
list of `SYNC_TRANSACTIONS` payloads pushed so far. -/
structure World where
  dbBlocks : List (Option Nat)
  queueItems : List (List (Option Nat))
deriving DecidableEq, Repr

/-- Result of `BlockRepository.blocksFromNode`: a page of blocks and the
cursor reported by the node. -/
structure FetchResult where
  blocks : List (Option Nat)
  endCursor : Option Nat
deriving DecidableEq, Repr

/-- Ambient collaborators of the syncer: the `IS_DEV_TEST` flag, the node
client (`blocksFromNode count startHeight`), and a per-block failure oracle
for `insertMany` that lets a persistence failure be exercised. -/
structure SyncEnv where
  isDevTest : Bool
  fetchBlocks : Nat → Nat → FetchResult
  insertFails : Option Nat → Bool

/-- `BlockRepository.insertMany(blocks, trx)` inside the transaction:
inserts row by row and fails (throws) at the first block the oracle
rejects, leaving a partial insert in the intermediate world that only the
transaction wrapper can discard. -/
def insertMany (fails : Option Nat → Bool) : List (Option Nat) → World → Except String World
  | [], w => Except.ok w
  | b :: bs, w =>
      if fails b then Except.error "insert failed"
      else insertMany fails bs { w with dbBlocks := w.dbBlocks ++ [b] }

/-- `queue.push(QueueNames.SYNC_TRANSACTIONS, { blocks })`: fire-and-forget
append of one work item. -/
def queuePush (w : World) (item : List (Option Nat)) : World :=
  { w with queueItems := w.queueItems ++ [item] }

/-- `syncBlocksRange({from, to})`. In the real branch it fetches
`to - from` blocks starting at `from`, then runs one database transaction
that inserts them and pushes exactly one `SYNC_TRANSACTIONS` item holding
`blocks.filter(Boolean)`; a failure inside the transaction rolls the world
back to its state before the transaction. Under `IS_DEV_TEST` it touches
nothing and returns `{ endCursor: to, hasBlocks: true }`. -/
def syncBlocksRange (env : SyncEnv) (ev : SyncWindow) (w : World) :
    World × Except String EventsReturn :=
  if env.isDevTest = false then
    let fetched := env.fetchBlocks (ev.to_ - ev.from_) ev.from_
    let hasBlocks := decide (0 < fetched.blocks.length)
    match insertMany env.insertFails fetched.blocks w with
    | Except.ok w1 =>
        (queuePush w1 (fetched.blocks.filter fun b => b.isSome),
         Except.ok ⟨fetched.endCursor, hasBlocks⟩)
    | Except.error e => (w, Except.error e)
  else
    (w, Except.ok ⟨some ev.to_, true⟩)

/-- Value component of a successful `syncBlocksRange` call. The source
computes it purely from the fetch (the database state never feeds back into
the returned `EventsReturn`), so it is a function of the window alone. -/
def rangeResult (env : SyncEnv) (ev : SyncWindow) : EventsReturn :=
  if env.isDevTest = false then
    let fetched := env.fetchBlocks (ev.to_ - ev.from_) ev.from_
    ⟨fetched.endCursor, decide (0 < fetched.blocks.length)⟩
  else ⟨some ev.to_, true⟩

/-- Runs `syncBlocksRange` over the planned windows in plan order,
stopping at the first failure. This is the shape of both execution paths of
`syncBlocks`: the `IS_DEV_TEST` for-await loop is literally this fold, and
`Promise.all` settles its result array by index (plan order) and rejects as
a whole when any window rejects; windows that committed before the failure
keep their effects. -/
def runRangeAll (env : SyncEnv) : List SyncWindow → World → World × Except String (List EventsReturn)
  | [], w => (w, Except.ok [])
  | e :: es, w =>
      match syncBlocksRange env e w with
      | (w1, Except.ok r) =>
          match runRangeAll env es w1 with
          | (w2, Except.ok rs) => (w2, Except.ok (r :: rs))
          | (w2, Except.error s) => (w2, Except.error s)
      | (w1, Except.error s) => (w1, Except.error s)

/-- `Syncer.syncBlocks`. With a positive cursor and an empty plan it
reports `{ endCursor: cursor, hasBlocks: false }` (the all-synced exit);
otherwise it runs every planned window and returns
`results[results.length - 1]`, which on an empty plan is the JS value
`undefined`, modelled as `none`. -/
def syncBlocks (env : SyncEnv) (ctx : Context) (w : World) :
    World × Except String (Option EventsReturn) :=
  let events := createBatchEvents ctx
  if 0 < ctx.cursor ∧ events = [] then
    (w, Except.ok (some ⟨some ctx.cursor, false⟩))
  else
    match runRangeAll env events w with
    | (w1, Except.ok rs) => (w1, Except.ok rs.getLast?)
    | (w1, Except.error s) => (w1, Except.error s)

/-- `Syncer.syncMissingBlocks`: re-fetches the head (`freshHead` is the
`GQLBlock | null` it obtained, reduced to its height) and syncs the single
window from the cursor to that height. -/
def syncMissingBlocks (env : SyncEnv) (ctx : Context) (freshHead : Option Nat) (w : World) :
    World × Except String EventsReturn :=
  let height := freshHead.getD 0
  syncBlocksRange env ⟨ctx.cursor, height⟩ w

/-! The xstate machine, embedded as an explicit step function over a state
tag and the `Context`. The eventless `always` transitions of `checking`
are modelled as an explicit `always` event; an invoked promise that rejects
in a state with no `onError` handler stops the actor with its context
frozen, modelled as the `halted` tag. -/

/-- State tags of the machine plus `halted` for an actor stopped by an
unhandled invocation error. -/
inductive MState where
  | idle
  | gettingLastBlock
  | syncingBlocks
  | checking
  | waiting
  | syncingMissingBlocks
  | resettingLastBlock
  | halted
deriving DecidableEq, Repr

/-- External stimuli of the machine: the start signal, the `onDone`
outputs of the four invoked actors (`doneLastBlock` serves both
`getLatestBlock` invocations), an invocation failure, the resolution of the
eventless transitions of `checking`, and the 1000 ms timer of `waiting`. -/
inductive MEvent where
  | startSync
  | doneLastBlock (h : Option Nat)
  | doneSyncBlocks (out : Option EventsReturn)
  | doneSyncMissing (out : Option EventsReturn)
  | invokeFailed
  | always
  | timer
deriving DecidableEq, Repr

/-- Guard `hasMoreEvents`: `context.lastResult?.hasBlocks ?? false`. -/
def hasMoreEvents (c : Context) : Bool :=
  (c.lastResult.map fun r => r.hasBlocks).getD false

/-- Guard `needToWatch`: `Boolean(context.watch)`. -/
def needToWatch (c : Context) : Bool :=
  c.watch.getD false

/-- The shared `onDone` assign of `syncingBlocks` and
`syncingMissingBlocks`: `lastResult` becomes the actor output and `cursor`
becomes `event.output?.endCursor ?? context.cursor`. -/
def assignRound (c : Context) (out : Option EventsReturn) : Context :=
  { c with
    lastResult := out
    cursor := ((out.bind fun r => r.endCursor).getD c.cursor) }

/-- The transition function of the machine. `none` means the state ignores
the event, as xstate does. -/
def mstep (s : MState) (c : Context) (e : MEvent) : Option (MState × Context) :=
  match s, e with
  | MState.idle, MEvent.startSync => some (MState.gettingLastBlock, c)
  | MState.gettingLastBlock, MEvent.doneLastBlock h =>
      some (MState.syncingBlocks, { c with lastBlock := h })
  | MState.gettingLastBlock, MEvent.invokeFailed => some (MState.halted, c)
  | MState.syncingBlocks, MEvent.doneSyncBlocks out =>
      some (MState.checking, assignRound c out)
  | MState.syncingBlocks, MEvent.invokeFailed => some (MState.halted, c)
  | MState.checking, MEvent.always =>
      if hasMoreEvents c then some (MState.syncingBlocks, c)
      else if needToWatch c then some (MState.waiting, c)
      else some (MState.idle, c)
  | MState.waiting, MEvent.timer => some (MState.syncingMissingBlocks, c)
  | MState.syncingMissingBlocks, MEvent.doneSyncMissing out =>
      some (MState.resettingLastBlock, assignRound c out)
  | MState.syncingMissingBlocks, MEvent.invokeFailed => some (MState.halted, c)
  | MState.resettingLastBlock, MEvent.doneLastBlock h =>
      some (MState.waiting, { c with lastBlock := h })
  | MState.resettingLastBlock, MEvent.invokeFailed => some (MState.halted, c)
  | _, _ => none

/-- Lower-bound condition on the payload of an event: every endCursor the
event carries is at least the current cursor. The round-result events are
the only ones that can move the cursor, and they move it exactly to the
carried endCursor, so this is the precise condition under which a step
cannot decrease the cursor. -/
def eventEndCursorGE (c : Context) (e : MEvent) : Prop :=
  match e with
  | MEvent.doneSyncBlocks out =>
      ∀ h : Nat, (out.bind fun r => r.endCursor) = some h → c.cursor ≤ h
  | MEvent.doneSyncMissing out =>
      ∀ h : Nat, (out.bind fun r => r.endCursor) = some h → c.cursor ≤ h
  | _ => True

/-- What the queue caller of the exported handler observes. -/
inductive HandlerOutcome where
  | returned
  | raised (message : String) (cause : String)
deriving DecidableEq, Repr

/-- The exported `syncBlocks` queue handler (source lines 239 to 254). The
try block contains only the synchronous calls `createActor`, `subscribe`,
`actor.start()` and `actor.send(...)`; the handler never awaits the actor,
so the promise-based invoked steps run after the try block has already
finished and a rejection there can no longer reach this catch. The first
argument is the error thrown synchronously during setup, if any; the
second is the eventual outcome of driving the machine, which only exists
when setup succeeded. The result pairs what the caller sees with that
unobserved machine outcome. -/
def syncBlocksHandler (setupFailure : Option String) (machineRun : Except String Unit) :
    HandlerOutcome × Option (Except String Unit) :=
  match setupFailure with
  | some e => (HandlerOutcome.raised "Sync block attempt failed!" e, none)
  | none => (HandlerOutcome.returned, some machineRun)

end SyncCore

namespace TxRepo

/-- One row of the `transactions` table as produced by
`TransactionEntity.toDBItem`: its `_id` key, its `data` column, and all
remaining columns abstracted into `rest` (their concrete content never
matters to `upsertMany`). -/
structure TxRow where
  rowId : String
  data : Nat
  rest : Nat
deriving DecidableEq, Repr

/-- Whether the table already holds a row with the given `_id`. -/
def hasId (tbl : List TxRow) (i : String) : Bool :=
  tbl.any fun r => r.rowId = i

/-- Inserting one value with
`onConflictDoUpdate({ target: _id, set: { data: cls.data.getSQL() } })`:
when a row with the same `_id` exists, only its `data` column is assigned —
and the right-hand side `cls.data.getSQL()` is a reference to the `data`
column of the target table, which inside `DO UPDATE SET` denotes the
existing row, so the assignment is `data = data`, a self-assignment; no
duplicate row is inserted. Without a conflict the row is appended. -/
def upsertRow (tbl : List TxRow) (v : TxRow) : List TxRow :=
  if tbl.any fun r => r.rowId = v.rowId then
    tbl.map fun r => if r.rowId = v.rowId then { r with data := r.data } else r
  else tbl ++ [v]

/-- `TransactionRepository.upsertMany`: one multi-row
`INSERT ... ON CONFLICT (_id) DO UPDATE` over the computed values, modelled
row by row in list order. -/
def upsertMany (tbl : List TxRow) (values : List TxRow) : List TxRow :=
  values.foldl upsertRow tbl

end TxRepo

namespace SyncCore

/-! Concrete instances used to exercise the definitions. -/

/-- Planner context of the catch-up scenario: cursor 0, offset 10,
limit 25, head 22. -/
def ctxA : Context :=
  { cursor := 0, offset := 10, limit := 25, lastBlock := some 22 }

/-- Planner context whose head lies past the page limit: cursor 0,
offset 10, limit 25, head 30. -/
def ctxHeadPastLimit : Context :=
  { cursor := 0, offset := 10, limit := 25, lastBlock := some 30 }

/-- Context with cursor 0 and head 0. -/
def ctxZero : Context :=
  { cursor := 0, offset := 10, limit := 25, lastBlock := some 0 }

/-- Fully synced context: cursor 7 equals head 7, watch on. -/
def ctxSynced : Context :=
  { cursor := 7, offset := 10, limit := 25, lastBlock := some 7
    lastResult := some ⟨some 7, false⟩, watch := some true }

/-- Context for a two-window round: cursor 0, offset 10, limit 20,
head 20. -/
def ctxTwo : Context :=
  { cursor := 0, offset := 10, limit := 20, lastBlock := some 20 }

/-- Context whose cursor 5 is ahead of the node head 3, watch on. -/
def ctxAhead : Context :=
  { cursor := 5, offset := 10, limit := 25, lastBlock := some 8
    lastResult := none, watch := some true }

/-- Context carrying a last result with hasBlocks true, watch on. -/
def ctxWatchTrue : Context :=
  { cursor := 3, offset := 10, limit := 25, lastBlock := some 3
    lastResult := some ⟨some 3, true⟩, watch := some true }

/-- Environment with a deterministic node: a page of one non-null block at
the window start and endCursor start + count; inserts never fail. -/
def envOk : SyncEnv :=
  ⟨false, fun count start => ⟨[some start], some (start + count)⟩, fun _ => false⟩

/-- Environment whose node returns one non-null and one null block;
inserts never fail. -/
def envMixed : SyncEnv :=
  ⟨false, fun count start => ⟨[some start, none], some (start + count)⟩, fun _ => false⟩

/-- Same node as `envMixed` but the insert of a null block fails. -/
def envFailNull : SyncEnv :=
  ⟨false, fun count start => ⟨[some start, none], some (start + count)⟩, fun b => b.isNone⟩

/-- Environment with `IS_DEV_TEST` set. -/
def envDev : SyncEnv :=
  ⟨true, fun _ _ => ⟨[], none⟩, fun _ => false⟩

/-- Empty initial world. -/
def w0 : World := ⟨[], []⟩

end SyncCore

namespace SyncCore

/-! Helper lemmas about the Batch Planner. -/

lemma ite_gt_eq_min (t h : Nat) : (if t > h then h else t) = min t h := by
  rw [Nat.min_def]
  split_ifs <;> omega

lemma getIdsRange_from (ctx : Context) : (getIdsRange ctx).from_ = ctx.cursor := rfl

lemma getIdsRange_to (ctx : Context) :
    (getIdsRange ctx).to_ = min (ctx.cursor + ctx.limit) (getLastBlockHeight ctx) := by
  show (if ctx.cursor + ctx.limit > getLastBlockHeight ctx then getLastBlockHeight ctx
        else ctx.cursor + ctx.limit) = _
  rw [ite_gt_eq_min]

lemma createBatchEvents_eq (ctx : Context) :
    createBatchEvents ctx =
      (List.range (numberOfBatches ctx)).map fun p =>
        ⟨ctx.cursor + p * ctx.offset,
         min (ctx.cursor + p * ctx.offset + ctx.offset) (getLastBlockHeight ctx)⟩ := by
  simp only [createBatchEvents, getIdsRange_from, ite_gt_eq_min]

lemma createBatchEvents_mem_iff (ctx : Context) (w : SyncWindow) :
    w ∈ createBatchEvents ctx ↔
      ∃ p, p < numberOfBatches ctx ∧
        w = ⟨ctx.cursor + p * ctx.offset,
             min (ctx.cursor + p * ctx.offset + ctx.offset) (getLastBlockHeight ctx)⟩ := by
  rw [createBatchEvents_eq]
  simp only [List.mem_map, List.mem_range]
  constructor
  · rintro ⟨p, hp, rfl⟩
    exact ⟨p, hp, rfl⟩
  · rintro ⟨p, hp, rfl⟩
    exact ⟨p, hp, rfl⟩

lemma lt_numberOfBatches_iff (ctx : Context) (hoff : 0 < ctx.offset) (p : Nat) :
    p < numberOfBatches ctx ↔ p * ctx.offset < (getIdsRange ctx).to_ - ctx.cursor := by
  simp only [numberOfBatches, getIdsRange_from]
  rw [Nat.lt_iff_add_one_le, Nat.le_div_iff_mul_le hoff]
  have h1 : (p + 1) * ctx.offset = p * ctx.offset + ctx.offset := by ring
  rw [h1]
  generalize p * ctx.offset = A
  omega

lemma le_numberOfBatches_mul (ctx : Context) (hoff : 0 < ctx.offset) :
    (getIdsRange ctx).to_ - ctx.cursor ≤ numberOfBatches ctx * ctx.offset := by
  by_contra hc
  push_neg at hc
  exact absurd ((lt_numberOfBatches_iff ctx hoff _).mpr hc) (lt_irrefl _)

lemma window_from_lt_head (ctx : Context) (hoff : 0 < ctx.offset)
    (_hch : ctx.cursor ≤ getLastBlockHeight ctx) (p : Nat)
    (hp : p < numberOfBatches ctx) :
    ctx.cursor + p * ctx.offset < getLastBlockHeight ctx := by
  have h1 := (lt_numberOfBatches_iff ctx hoff p).mp hp
  have h2 : (getIdsRange ctx).to_ ≤ getLastBlockHeight ctx := by
    rw [getIdsRange_to]
    exact min_le_right _ _
  set A := p * ctx.offset with hA
  omega

lemma createBatchEvents_contiguous (ctx : Context) (hoff : 0 < ctx.offset)
    (hch : ctx.cursor ≤ getLastBlockHeight ctx) (i : Nat)
    (h : i + 1 < (createBatchEvents ctx).length) :
    ((createBatchEvents ctx).get ⟨i + 1, h⟩).from_ =
      ((createBatchEvents ctx).get ⟨i, Nat.lt_of_succ_lt h⟩).to_ := by
  have hlen : (createBatchEvents ctx).length = numberOfBatches ctx := by
    rw [createBatchEvents_eq]
    simp
  have hin : i + 1 < numberOfBatches ctx := hlen ▸ h
  have hhead := window_from_lt_head ctx hoff hch (i + 1) hin
  simp only [List.get_eq_getElem, createBatchEvents_eq, List.getElem_map, List.getElem_range]
  have hexp : ctx.cursor + (i + 1) * ctx.offset = ctx.cursor + i * ctx.offset + ctx.offset := by
    ring
  rw [hexp] at hhead ⊢
  exact (min_eq_left (le_of_lt hhead)).symm

lemma createBatchEvents_from_lt_to (ctx : Context) (hoff : 0 < ctx.offset)
    (hch : ctx.cursor ≤ getLastBlockHeight ctx) (w : SyncWindow)
    (hw : w ∈ createBatchEvents ctx) : w.from_ < w.to_ := by
  rw [createBatchEvents_mem_iff] at hw
  obtain ⟨p, hp, rfl⟩ := hw
  have h1 := window_from_lt_head ctx hoff hch p hp
  show ctx.cursor + p * ctx.offset < min _ _
  rw [lt_min_iff]
  exact ⟨Nat.lt_add_of_pos_right hoff, h1⟩

lemma createBatchEvents_nonoverlap (ctx : Context) (i j : Nat) (hij : i < j)
    (hj : j < (createBatchEvents ctx).length) :
    ((createBatchEvents ctx).get ⟨i, lt_trans hij hj⟩).to_ ≤
      ((createBatchEvents ctx).get ⟨j, hj⟩).from_ := by
  simp only [List.get_eq_getElem, createBatchEvents_eq, List.getElem_map, List.getElem_range]
  have h1 : (i + 1) * ctx.offset ≤ j * ctx.offset :=
    Nat.mul_le_mul_right _ hij
  have hexp : (i + 1) * ctx.offset = i * ctx.offset + ctx.offset := by ring
  rw [hexp] at h1
  have h2 : ctx.cursor + i * ctx.offset + ctx.offset ≤ ctx.cursor + j * ctx.offset := by
    omega
  exact le_trans (min_le_left _ _) h2

lemma createBatchEvents_coverage (ctx : Context) (hoff : 0 < ctx.offset)
    (_hch : ctx.cursor ≤ getLastBlockHeight ctx) (x : Nat) :
    (∃ w ∈ createBatchEvents ctx, w.from_ ≤ x ∧ x < w.to_) ↔
      (ctx.cursor ≤ x ∧
       x < min (ctx.cursor + numberOfBatches ctx * ctx.offset) (getLastBlockHeight ctx)) := by
  constructor
  · rintro ⟨w, hw, hx1, hx2⟩
    rw [createBatchEvents_mem_iff] at hw
    obtain ⟨p, hp, rfl⟩ := hw
    have hx1a : ctx.cursor + p * ctx.offset ≤ x := hx1
    have hx2a : x < min (ctx.cursor + p * ctx.offset + ctx.offset) (getLastBlockHeight ctx) := hx2
    rw [lt_min_iff] at hx2a
    have hmul : (p + 1) * ctx.offset ≤ numberOfBatches ctx * ctx.offset :=
      Nat.mul_le_mul_right _ hp
    have hexp : (p + 1) * ctx.offset = p * ctx.offset + ctx.offset := by ring
    rw [hexp] at hmul
    rw [lt_min_iff]
    set A := p * ctx.offset with hA
    set B := numberOfBatches ctx * ctx.offset with hB
    omega
  · rintro ⟨hx1, hx2⟩
    rw [lt_min_iff] at hx2
    obtain ⟨hx2a, hx2b⟩ := hx2
    have hpn : (x - ctx.cursor) / ctx.offset < numberOfBatches ctx := by
      rw [Nat.div_lt_iff_lt_mul hoff]
      have : numberOfBatches ctx * ctx.offset = ctx.offset * numberOfBatches ctx := by ring
      set B := numberOfBatches ctx * ctx.offset with hB
      omega
    refine ⟨⟨ctx.cursor + ((x - ctx.cursor) / ctx.offset) * ctx.offset,
             min (ctx.cursor + ((x - ctx.cursor) / ctx.offset) * ctx.offset + ctx.offset)
               (getLastBlockHeight ctx)⟩,
           (createBatchEvents_mem_iff ctx _).mpr ⟨_, hpn, rfl⟩, ?_, ?_⟩
    · show ctx.cursor + ((x - ctx.cursor) / ctx.offset) * ctx.offset ≤ x
      have hdm : ((x - ctx.cursor) / ctx.offset) * ctx.offset +
          (x - ctx.cursor) % ctx.offset = x - ctx.cursor := by
        rw [Nat.mul_comm]
        exact Nat.div_add_mod _ _
      set A := ((x - ctx.cursor) / ctx.offset) * ctx.offset with hA
      omega
    · show x < min (ctx.cursor + ((x - ctx.cursor) / ctx.offset) * ctx.offset + ctx.offset)
        (getLastBlockHeight ctx)
      have hdm : ((x - ctx.cursor) / ctx.offset) * ctx.offset +
          (x - ctx.cursor) % ctx.offset = x - ctx.cursor := by
        rw [Nat.mul_comm]
        exact Nat.div_add_mod _ _
      have hmod : (x - ctx.cursor) % ctx.offset < ctx.offset :=
        Nat.mod_lt _ hoff
      rw [lt_min_iff]
      set A := ((x - ctx.cursor) / ctx.offset) * ctx.offset with hA
      constructor
      · omega
      · exact hx2b

end SyncCore

namespace SyncCore

/-! Claim C1. -/

/-- C1 counterexample: with cursor 0, offset 10, limit 25 and head 30
(head above the cursor), the planner emits the window from 20 to 30, whose
upper bound 30 exceeds cursor + limit = 25; the height 27 is covered by a
window although it does not lie in the interval from cursor to
min (cursor + limit) head. -/
theorem c1_counterexample :
    ctxHeadPastLimit.cursor ≤ getLastBlockHeight ctxHeadPastLimit ∧
    createBatchEvents ctxHeadPastLimit = [⟨0, 10⟩, ⟨10, 20⟩, ⟨20, 30⟩] ∧
    (∃ w ∈ createBatchEvents ctxHeadPastLimit,
        ctxHeadPastLimit.cursor + ctxHeadPastLimit.limit < w.to_) ∧
    (∃ w ∈ createBatchEvents ctxHeadPastLimit, w.from_ ≤ 27 ∧ 27 < w.to_) ∧
    ¬ (27 < min (ctxHeadPastLimit.cursor + ctxHeadPastLimit.limit)
          (getLastBlockHeight ctxHeadPastLimit)) := by
  decide

/-- C1 (amended): for every context with positive offset and head at or
above the cursor, the planned windows are contiguous, each window is
non-empty, windows with smaller index end no later than later windows
begin (no overlap, increasing), and their union is exactly the interval
from cursor (inclusive) to min (cursor + numberOfBatches ctx * offset) head
(exclusive); that interval contains the interval from cursor to
min (cursor + limit) head that the original claim announced, but the last
window is clamped only to the head, so it may extend past cursor + limit. -/
theorem c1_batch_planner_windows (ctx : Context)
    (hoff : 0 < ctx.offset) (hch : ctx.cursor ≤ getLastBlockHeight ctx) :
    (∀ i : Nat, ∀ h : i + 1 < (createBatchEvents ctx).length,
        ((createBatchEvents ctx).get ⟨i + 1, h⟩).from_ =
          ((createBatchEvents ctx).get ⟨i, Nat.lt_of_succ_lt h⟩).to_) ∧
    (∀ w ∈ createBatchEvents ctx, w.from_ < w.to_) ∧
    (∀ i j : Nat, ∀ hij : i < j, ∀ hj : j < (createBatchEvents ctx).length,
        ((createBatchEvents ctx).get ⟨i, lt_trans hij hj⟩).to_ ≤
          ((createBatchEvents ctx).get ⟨j, hj⟩).from_) ∧
    (∀ x : Nat,
        (∃ w ∈ createBatchEvents ctx, w.from_ ≤ x ∧ x < w.to_) ↔
          (ctx.cursor ≤ x ∧
           x < min (ctx.cursor + numberOfBatches ctx * ctx.offset)
                 (getLastBlockHeight ctx))) ∧
    (min (ctx.cursor + ctx.limit) (getLastBlockHeight ctx) ≤
        min (ctx.cursor + numberOfBatches ctx * ctx.offset) (getLastBlockHeight ctx)) := by
  refine ⟨createBatchEvents_contiguous ctx hoff hch,
          createBatchEvents_from_lt_to ctx hoff hch,
          createBatchEvents_nonoverlap ctx,
          createBatchEvents_coverage ctx hoff hch, ?_⟩
  have h1 : ctx.cursor ≤ min (ctx.cursor + ctx.limit) (getLastBlockHeight ctx) :=
    le_min (Nat.le_add_right _ _) hch
  have h2 : min (ctx.cursor + ctx.limit) (getLastBlockHeight ctx) ≤ getLastBlockHeight ctx :=
    min_le_right _ _
  have h3 := le_numberOfBatches_mul ctx hoff
  rw [getIdsRange_to] at h3
  rw [le_min_iff]
  set M := min (ctx.cursor + ctx.limit) (getLastBlockHeight ctx) with hM
  set B := numberOfBatches ctx * ctx.offset with hB
  omega

/-- C1 witness: the amended statement instantiated at cursor 0, offset 10,
limit 25, head 22: height 21 is covered, all windows are non-empty, and
the windows are the expected three. -/
theorem c1_batch_planner_windows_witness :
    (∃ w ∈ createBatchEvents ctxA, w.from_ ≤ 21 ∧ 21 < w.to_) ∧
    (∀ w ∈ createBatchEvents ctxA, w.from_ < w.to_) ∧
    createBatchEvents ctxA = [⟨0, 10⟩, ⟨10, 20⟩, ⟨20, 22⟩] := by
  have h := c1_batch_planner_windows ctxA (by decide) (by decide)
  exact ⟨(h.2.2.2.1 21).mpr (by decide), h.2.1, by decide⟩

/-! Claim C6. -/

/-- C6: every window produced by one planning round has its upper bound at
or below the head observed at planning time. -/
theorem c6_window_to_le_head (ctx : Context) (w : SyncWindow)
    (hw : w ∈ createBatchEvents ctx) : w.to_ ≤ getLastBlockHeight ctx := by
  rw [createBatchEvents_mem_iff] at hw
  obtain ⟨p, hp, rfl⟩ := hw
  exact min_le_right _ _

/-- C6 witness: the final window of the cursor 0, offset 10, limit 25,
head 22 plan stays at or below the head 22. -/
theorem c6_window_to_le_head_witness :
    (⟨20, 22⟩ : SyncWindow).to_ ≤ getLastBlockHeight ctxA :=
  c6_window_to_le_head ctxA ⟨20, 22⟩ (by decide)

/-! Claim C2. -/

/-- C2 counterexample: with cursor 0 and head 0 the planner yields zero
windows, but syncBlocks returns the JS value undefined
(results[results.length - 1] of an empty results array), not a round
result with hasBlocks false. -/
theorem c2_counterexample :
    createBatchEvents ctxZero = [] ∧
    (syncBlocks envOk ctxZero w0).2 = Except.ok none ∧
    ¬ ∃ r : EventsReturn, (syncBlocks envOk ctxZero w0).2 = Except.ok (some r) := by
  refine ⟨rfl, rfl, ?_⟩
  rintro ⟨r, hr⟩
  rw [show (syncBlocks envOk ctxZero w0).2 = Except.ok none from rfl] at hr
  exact Option.noConfusion (Except.ok.inj hr)

/-- C2 (amended): if the cursor is 0 and the head is 0 the planner yields
zero windows and syncBlocks returns undefined instead of a round result;
the machine then keeps the prior cursor and the hasMoreEvents guard reads
the missing result as hasBlocks false. -/
theorem c2_zero_round (env : SyncEnv) (ctx : Context) (w : World)
    (hc : ctx.cursor = 0) (hh : getLastBlockHeight ctx = 0) :
    createBatchEvents ctx = [] ∧
    syncBlocks env ctx w = (w, Except.ok none) ∧
    (assignRound ctx none).cursor = ctx.cursor ∧
    hasMoreEvents (assignRound ctx none) = false := by
  have hn : numberOfBatches ctx = 0 := by
    simp only [numberOfBatches, getIdsRange_from, getIdsRange_to, hc, hh]
    rcases Nat.eq_zero_or_pos ctx.offset with h0 | h0
    · simp [h0]
    · simp only [Nat.min_zero, Nat.zero_sub, Nat.zero_add]
      exact Nat.div_eq_of_lt (by omega)
  have hev : createBatchEvents ctx = [] := by
    rw [createBatchEvents_eq, hn]
    simp
  refine ⟨hev, ?_, rfl, rfl⟩
  simp only [syncBlocks, hev, hc]
  simp [runRangeAll]

/-- C2 witness: the amended statement at the concrete context with
cursor 0, offset 10, limit 25 and head 0. -/
theorem c2_zero_round_witness :
    createBatchEvents ctxZero = [] ∧ syncBlocks envOk ctxZero w0 = (w0, Except.ok none) := by
  have h := c2_zero_round envOk ctxZero w0 rfl rfl
  exact ⟨h.1, h.2.1⟩

end SyncCore

namespace SyncCore

/-! Helper lemmas about the Range Syncer. -/

lemma getLast?_map_eq {α β : Type} (f : α → β) (l : List α) :
    (l.map f).getLast? = l.getLast?.map f := by
  induction l with
  | nil => rfl
  | cons a l ih =>
      cases l with
      | nil => rfl
      | cons b l => simpa using ih

lemma insertMany_ok (fails : Option Nat → Bool) :
    ∀ (bs : List (Option Nat)) (w w1 : World),
      insertMany fails bs w = Except.ok w1 →
      w1.dbBlocks = w.dbBlocks ++ bs ∧ w1.queueItems = w.queueItems := by
  intro bs
  induction bs with
  | nil =>
      intro w w1 h
      simp only [insertMany, Except.ok.injEq] at h
      subst h
      simp
  | cons b bs ih =>
      intro w w1 h
      simp only [insertMany] at h
      split at h
      · exact absurd h (by simp)
      · obtain ⟨h1, h2⟩ := ih _ _ h
        constructor
        · rw [h1]
          simp
        · exact h2

lemma syncBlocksRange_ok_val (env : SyncEnv) (ev : SyncWindow) (w w1 : World)
    (r : EventsReturn) (h : syncBlocksRange env ev w = (w1, Except.ok r)) :
    r = rangeResult env ev := by
  simp only [syncBlocksRange] at h
  simp only [rangeResult]
  split at h
  · rename_i hdev
    rw [if_pos hdev]
    split at h
    · simp only [Prod.mk.injEq, Except.ok.injEq] at h
      exact h.2.symm
    · exact absurd h (by simp)
  · rename_i hdev
    rw [if_neg hdev]
    simp only [Prod.mk.injEq, Except.ok.injEq] at h
    exact h.2.symm

lemma runRangeAll_ok_results (env : SyncEnv) :
    ∀ (es : List SyncWindow) (w w1 : World) (rs : List EventsReturn),
      runRangeAll env es w = (w1, Except.ok rs) →
      rs = es.map (rangeResult env) := by
  intro es
  induction es with
  | nil =>
      intro w w1 rs h
      simp only [runRangeAll, Prod.mk.injEq, Except.ok.injEq] at h
      simp [h.2.symm]
  | cons e es ih =>
      intro w w1 rs h
      simp only [runRangeAll] at h
      cases hsr : syncBlocksRange env e w with
      | mk w2 res =>
          rw [hsr] at h
          cases res with
          | error s => simp at h
          | ok r =>
              dsimp only at h
              cases hrr : runRangeAll env es w2 with
              | mk w3 res2 =>
                  rw [hrr] at h
                  cases res2 with
                  | error s => simp at h
                  | ok rs2 =>
                      simp only [Prod.mk.injEq, Except.ok.injEq] at h
                      rw [← h.2, List.map_cons]
                      congr 1
                      · exact syncBlocksRange_ok_val env e w w2 r hsr
                      · exact ih _ _ _ hrr

end SyncCore

namespace SyncCore

/-! Claim C4. -/

/-- C4: in the real branch, a successful syncBlocksRange appends exactly
the fetched blocks to the table and exactly one work item (the non-null
subset of the fetched blocks) to the downstream queue; a failed one leaves
the world exactly as it was, with no partial insert and no enqueue; and an
invocation failure in the syncingBlocks state halts the machine with its
context, hence its cursor, unchanged. -/
theorem c4_range_transaction_atomic (env : SyncEnv) (ev : SyncWindow) (w : World) :
    (∀ (w1 : World) (r : EventsReturn), env.isDevTest = false →
        syncBlocksRange env ev w = (w1, Except.ok r) →
        w1.dbBlocks = w.dbBlocks ++ (env.fetchBlocks (ev.to_ - ev.from_) ev.from_).blocks ∧
        w1.queueItems = w.queueItems ++
          [(env.fetchBlocks (ev.to_ - ev.from_) ev.from_).blocks.filter fun b => b.isSome]) ∧
    (∀ (w1 : World) (e : String),
        syncBlocksRange env ev w = (w1, Except.error e) → w1 = w) ∧
    (∀ c : Context,
        mstep MState.syncingBlocks c MEvent.invokeFailed = some (MState.halted, c)) := by
  refine ⟨?_, ?_, fun c => rfl⟩
  · intro w1 r hdev h
    simp only [syncBlocksRange] at h
    rw [if_pos hdev] at h
    cases hins : insertMany env.insertFails
        (env.fetchBlocks (ev.to_ - ev.from_) ev.from_).blocks w with
    | ok w2 =>
        rw [hins] at h
        simp only [Prod.mk.injEq, Except.ok.injEq] at h
        obtain ⟨hw, hr⟩ := h
        obtain ⟨hdb, hq⟩ := insertMany_ok env.insertFails _ w w2 hins
        subst hw
        constructor
        · exact hdb
        · show w2.queueItems ++ _ = w.queueItems ++ _
          rw [hq]
    | error s =>
        rw [hins] at h
        simp at h
  · intro w1 e h
    simp only [syncBlocksRange] at h
    split at h
    · rename_i hdev
      cases hins : insertMany env.insertFails
          (env.fetchBlocks (ev.to_ - ev.from_) ev.from_).blocks w with
      | ok w2 =>
          rw [hins] at h
          simp at h
      | error s =>
          rw [hins] at h
          simp only [Prod.mk.injEq] at h
          exact h.1.symm
    · simp at h

end SyncCore

namespace SyncCore

/-- C4 witness: with a node page of one non-null and one null block over
the window from 0 to 2, a successful run appends both rows and exactly one
queue item holding the non-null subset; with the null insert failing, the
run leaves the empty world unchanged; and the machine invocation-failure
step keeps the context. -/
theorem c4_range_transaction_atomic_witness :
    ((⟨[some 0, none], [[some 0]]⟩ : World).dbBlocks =
        w0.dbBlocks ++ (envMixed.fetchBlocks 2 0).blocks ∧
     (⟨[some 0, none], [[some 0]]⟩ : World).queueItems =
        w0.queueItems ++ [(envMixed.fetchBlocks 2 0).blocks.filter fun b => b.isSome]) ∧
    w0 = w0 ∧
    mstep MState.syncingBlocks ctxTwo MEvent.invokeFailed = some (MState.halted, ctxTwo) := by
  refine ⟨?_, ?_, ?_⟩
  · exact (c4_range_transaction_atomic envMixed ⟨0, 2⟩ w0).1
      ⟨[some 0, none], [[some 0]]⟩ ⟨some 2, true⟩ rfl rfl
  · exact (c4_range_transaction_atomic envFailNull ⟨0, 2⟩ w0).2.1 w0 "insert failed" rfl
  · exact (c4_range_transaction_atomic envMixed ⟨0, 2⟩ w0).2.2 ctxTwo

/-! Claim C3. -/

/-- C3: when a round has a non-empty plan and every window succeeds, the
round result of syncBlocks is exactly the result of the last planned
(highest) window, and the syncingBlocks onDone assign records it as
lastResult and moves the cursor to its endCursor, keeping the prior cursor
when the endCursor is absent. In this embedding the results stand in plan
order, which is how Promise.all settles its result array regardless of the
order in which the individual promises complete. -/
theorem c3_round_result_is_last_window (env : SyncEnv) (ctx : Context) (w w1 : World)
    (rs : List EventsReturn) (hne : createBatchEvents ctx ≠ [])
    (hrun : runRangeAll env (createBatchEvents ctx) w = (w1, Except.ok rs)) :
    syncBlocks env ctx w =
      (w1, Except.ok (some (rangeResult env ((createBatchEvents ctx).getLast hne)))) ∧
    (∀ (c : Context) (r : EventsReturn),
        mstep MState.syncingBlocks c (MEvent.doneSyncBlocks (some r)) =
          some (MState.checking, assignRound c (some r)) ∧
        (assignRound c (some r)).cursor = r.endCursor.getD c.cursor ∧
        (assignRound c (some r)).lastResult = some r) ∧
    (∀ c : Context, (assignRound c none).cursor = c.cursor) := by
  refine ⟨?_, fun c r => ⟨rfl, rfl, rfl⟩, fun c => rfl⟩
  have hrs : rs = (createBatchEvents ctx).map (rangeResult env) :=
    runRangeAll_ok_results env _ w w1 rs hrun
  simp only [syncBlocks]
  rw [if_neg (by intro hcon; exact hne hcon.2)]
  rw [hrun]
  dsimp only
  subst hrs
  rw [getLast?_map_eq]
  rw [List.getLast?_eq_getLast _ hne]
  rfl

/-- C3 witness: the two-window plan with cursor 0, offset 10, limit 20,
head 20 produces the result of the second window, endCursor 20, and the
assign moves the cursor to 20. -/
theorem c3_round_result_is_last_window_witness :
    syncBlocks envOk ctxTwo w0 =
      (⟨[some 0, some 10], [[some 0], [some 10]]⟩,
       Except.ok (some ⟨some 20, true⟩)) ∧
    (assignRound ctxTwo (some ⟨some 20, true⟩)).cursor = 20 := by
  have h := c3_round_result_is_last_window envOk ctxTwo w0
      ⟨[some 0, some 10], [[some 0], [some 10]]⟩
      [⟨some 10, true⟩, ⟨some 20, true⟩] (by decide) rfl
  exact ⟨h.1, (h.2.1 ctxTwo ⟨some 20, true⟩).2.1⟩

/-! Claim C9. -/

/-- C9: with IS_DEV_TEST set, every window run touches neither the
database nor the queue, performs no node fetch (the result does not depend
on the node at all), and returns endCursor = to and hasBlocks = true; a
whole round maps the planned windows to those stub results in plan order
(the sequential for-await path) and syncBlocks returns the last of them,
leaving the world unchanged. -/
theorem c9_dev_test_short_circuit (env : SyncEnv) (hdev : env.isDevTest = true) :
    (∀ (ev : SyncWindow) (w : World),
        syncBlocksRange env ev w = (w, Except.ok ⟨some ev.to_, true⟩)) ∧
    (∀ (es : List SyncWindow) (w : World),
        runRangeAll env es w =
          (w, Except.ok (es.map fun e => (⟨some e.to_, true⟩ : EventsReturn)))) ∧
    (∀ (ctx : Context) (w : World),
        ¬ (0 < ctx.cursor ∧ createBatchEvents ctx = []) →
        syncBlocks env ctx w =
          (w, Except.ok ((createBatchEvents ctx).map fun e =>
              (⟨some e.to_, true⟩ : EventsReturn)).getLast?)) := by
  have h1 : ∀ (ev : SyncWindow) (w : World),
      syncBlocksRange env ev w = (w, Except.ok ⟨some ev.to_, true⟩) := by
    intro ev w
    simp only [syncBlocksRange]
    rw [if_neg (by simp [hdev])]
  have h2 : ∀ (es : List SyncWindow) (w : World),
      runRangeAll env es w =
        (w, Except.ok (es.map fun e => (⟨some e.to_, true⟩ : EventsReturn))) := by
    intro es
    induction es with
    | nil => intro w; rfl
    | cons e es ih =>
        intro w
        simp only [runRangeAll]
        rw [h1 e w]
        dsimp only
        rw [ih w]
        rfl
  refine ⟨h1, h2, ?_⟩
  intro ctx w hcond
  simp only [syncBlocks]
  rw [if_neg hcond, h2]

/-- C9 witness: in dev-test mode the window from 4 to 9 returns
endCursor 9 and hasBlocks true without touching the empty world. -/
theorem c9_dev_test_short_circuit_witness :
    syncBlocksRange envDev ⟨4, 9⟩ w0 = (w0, Except.ok ⟨some 9, true⟩) :=
  (c9_dev_test_short_circuit envDev rfl).1 ⟨4, 9⟩ w0

end SyncCore

namespace SyncCore

/-! Helper lemma about the onDone assigns. -/

lemma assignRound_cursor_ge (c : Context) (out : Option EventsReturn)
    (hge : ∀ h : Nat, (out.bind fun r => r.endCursor) = some h → c.cursor ≤ h) :
    c.cursor ≤ (assignRound c out).cursor := by
  show c.cursor ≤ (out.bind fun r => r.endCursor).getD c.cursor
  cases hoc : out.bind fun r => r.endCursor with
  | none => exact Nat.le_refl _
  | some h => exact hge h hoc

/-! Claim C7. -/

/-- C7 counterexample: in dev-test mode a watch tick that finds the fresh
head 3 below the cursor 5 reports endCursor 3, and the
syncingMissingBlocks onDone assign then moves the cursor from 5 down
to 3 — the cursor strictly decreases across a machine transition. -/
theorem c7_counterexample :
    (syncMissingBlocks envDev ctxAhead (some 3) w0).2 = Except.ok ⟨some 3, true⟩ ∧
    mstep MState.syncingMissingBlocks ctxAhead (MEvent.doneSyncMissing (some ⟨some 3, true⟩)) =
      some (MState.resettingLastBlock, assignRound ctxAhead (some ⟨some 3, true⟩)) ∧
    (assignRound ctxAhead (some ⟨some 3, true⟩)).cursor = 3 ∧
    3 < ctxAhead.cursor :=
  ⟨rfl, rfl, rfl, by decide⟩

/-- C7 (amended): the onDone assigns of syncingBlocks and
syncingMissingBlocks keep the prior cursor when the round result carries no
endCursor and otherwise set the cursor to that endCursor unconditionally;
hence every machine step leaves the cursor non-decreasing exactly when
every endCursor carried by the incoming event is at least the current
cursor — the code itself does not enforce that lower bound. -/
theorem c7_cursor_monotone_amended (s : MState) (c : Context) (e : MEvent)
    (s1 : MState) (c1 : Context) (hstep : mstep s c e = some (s1, c1))
    (hge : eventEndCursorGE c e) : c.cursor ≤ c1.cursor := by
  cases s <;> cases e <;> simp only [mstep] at hstep
  all_goals try exact Option.noConfusion hstep
  all_goals try split at hstep
  all_goals try split at hstep
  all_goals simp only [Option.some.injEq, Prod.mk.injEq] at hstep
  all_goals obtain ⟨hs1, hc1⟩ := hstep
  all_goals subst hc1
  all_goals try exact Nat.le_refl _
  all_goals simp only [eventEndCursorGE] at hge
  all_goals exact assignRound_cursor_ge c _ hge

/-- C7 witness: the amended statement at the syncingBlocks step that
receives endCursor 20 with cursor 0. -/
theorem c7_cursor_monotone_amended_witness :
    ctxTwo.cursor ≤ (assignRound ctxTwo (some ⟨some 20, true⟩)).cursor :=
  c7_cursor_monotone_amended MState.syncingBlocks ctxTwo
    (MEvent.doneSyncBlocks (some ⟨some 20, true⟩)) MState.checking
    (assignRound ctxTwo (some ⟨some 20, true⟩)) rfl
    (by
      simp only [eventEndCursorGE]
      intro h hh
      exact Nat.zero_le h)

/-! Claim C5. -/

/-- C5 counterexample: the machine enters waiting from resettingLastBlock
unconditionally: here the last recorded round result has hasBlocks true
(as every dev-test watch tick reports), yet the onDone step of
resettingLastBlock targets waiting. -/
theorem c5_counterexample :
    hasMoreEvents ctxWatchTrue = true ∧
    mstep MState.resettingLastBlock ctxWatchTrue (MEvent.doneLastBlock (some 9)) =
      some (MState.waiting, { ctxWatchTrue with lastBlock := some 9 }) :=
  ⟨rfl, rfl⟩

/-- C5 (amended): from the checking state the machine moves to waiting
only when the hasMoreEvents guard (the last result hasBlocks, defaulting
to false) is false and watch is on, and to idle only when that guard is
false and watch is off; the waiting state is additionally re-entered
unconditionally from resettingLastBlock inside the watch loop. A round
with a positive cursor and zero planned windows returns endCursor = cursor
and hasBlocks = false — the fully-synced outcome, not an error. -/
theorem c5_checking_guards :
    (∀ (c : Context) (s1 : MState) (c1 : Context),
        mstep MState.checking c MEvent.always = some (s1, c1) →
        c1 = c ∧
        (s1 = MState.waiting → hasMoreEvents c = false ∧ needToWatch c = true) ∧
        (s1 = MState.idle → hasMoreEvents c = false ∧ needToWatch c = false)) ∧
    (∀ (env : SyncEnv) (ctx : Context) (w : World),
        0 < ctx.cursor → createBatchEvents ctx = [] →
        syncBlocks env ctx w = (w, Except.ok (some ⟨some ctx.cursor, false⟩))) := by
  constructor
  · intro c s1 c1 h
    simp only [mstep] at h
    split at h
    · rename_i hguard
      simp only [Option.some.injEq, Prod.mk.injEq] at h
      obtain ⟨hs1, hc1⟩ := h
      subst hc1
      refine ⟨rfl, ?_, ?_⟩ <;> intro heq <;> rw [← hs1] at heq <;> exact MState.noConfusion heq
    · split at h
      · rename_i hguard hwatch
        simp only [Option.some.injEq, Prod.mk.injEq] at h
        obtain ⟨hs1, hc1⟩ := h
        subst hc1
        refine ⟨rfl, fun _ => ⟨by simpa using hguard, hwatch⟩, ?_⟩
        intro heq
        rw [← hs1] at heq
        exact MState.noConfusion heq
      · rename_i hguard hwatch
        simp only [Option.some.injEq, Prod.mk.injEq] at h
        obtain ⟨hs1, hc1⟩ := h
        subst hc1
        refine ⟨rfl, ?_, fun _ => ⟨by simpa using hguard, by simpa using hwatch⟩⟩
        intro heq
        rw [← hs1] at heq
        exact MState.noConfusion heq
  · intro env ctx w hc hev
    simp only [syncBlocks]
    rw [if_pos ⟨hc, hev⟩]

/-- C5 witness: with cursor 7 equal to head 7 and watch on, the round
reports endCursor 7 with hasBlocks false, the guard is false and watch is
on, which is exactly the waiting branch of checking. -/
theorem c5_checking_guards_witness :
    (hasMoreEvents ctxSynced = false ∧ needToWatch ctxSynced = true) ∧
    syncBlocks envOk ctxSynced w0 = (w0, Except.ok (some ⟨some 7, false⟩)) := by
  refine ⟨(c5_checking_guards.1 ctxSynced MState.waiting ctxSynced rfl).2.1 rfl, ?_⟩
  exact c5_checking_guards.2 envOk ctxSynced w0 (by decide) (by decide)

/-! Claim C8. -/

/-- C8 counterexample: a failure inside the asynchronously driven machine
(for instance a failed persistence transaction) reaches the caller of the
exported handler as a normal return, not as a wrapped re-raised error:
the handler caught nothing because its try block had already finished. -/
theorem c8_counterexample :
    syncBlocksHandler none (Except.error "range sync failed") =
      (HandlerOutcome.returned, some (Except.error "range sync failed")) :=
  rfl

/-- C8 (amended): the exported handler catches only failures thrown
synchronously while creating, subscribing, starting or signalling the
actor, logs them and re-raises them as one wrapped error carrying the
original cause; failures raised later inside the invoked asynchronous
steps never pass through this handler, whose own result is a normal
return in that case. -/
theorem c8_handler_wraps_only_sync_failures :
    ∀ (e : String) (run : Except String Unit),
      (syncBlocksHandler (some e) run).1 =
        HandlerOutcome.raised "Sync block attempt failed!" e ∧
      (syncBlocksHandler none run).1 = HandlerOutcome.returned :=
  fun _ _ => ⟨rfl, rfl⟩

end SyncCore

namespace TxRepo

/-! Helper lemmas about the transaction upsert. -/

lemma upsertRow_eq_or (tbl : List TxRow) (v : TxRow) :
    upsertRow tbl v = tbl ∨ upsertRow tbl v = tbl ++ [v] := by
  unfold upsertRow
  split
  · left
    have hid : ∀ r : TxRow,
        (if r.rowId = v.rowId then { r with data := r.data } else r) = r := by
      intro r
      split <;> rfl
    simp [hid]
  · right
    rfl

lemma upsertRow_conflict (tbl : List TxRow) (v : TxRow)
    (h : hasId tbl v.rowId = true) : upsertRow tbl v = tbl := by
  unfold upsertRow
  split
  · have hid : ∀ r : TxRow,
        (if r.rowId = v.rowId then { r with data := r.data } else r) = r := by
      intro r
      split <;> rfl
    simp [hid]
  · rename_i hcond
    exact absurd h hcond

lemma hasId_upsertRow (tbl : List TxRow) (v : TxRow) (i : String)
    (h : hasId tbl i = true) : hasId (upsertRow tbl v) i = true := by
  rcases upsertRow_eq_or tbl v with heq | heq <;> rw [heq]
  · exact h
  · unfold hasId at h ⊢
    rw [List.any_append]
    simp [h]

lemma hasId_upsertRow_self (tbl : List TxRow) (v : TxRow) :
    hasId (upsertRow tbl v) v.rowId = true := by
  by_cases hc : hasId tbl v.rowId = true
  · rw [upsertRow_conflict tbl v hc]
    exact hc
  · have heq : upsertRow tbl v = tbl ++ [v] := by
      unfold upsertRow
      unfold hasId at hc
      rw [if_neg hc]
    rw [heq]
    unfold hasId
    rw [List.any_append]
    simp

lemma hasId_upsertMany (i : String) :
    ∀ (values tbl : List TxRow), hasId tbl i = true →
      hasId (upsertMany tbl values) i = true := by
  intro values
  induction values with
  | nil => intro tbl h; exact h
  | cons v vs ih =>
      intro tbl h
      show hasId (upsertMany (upsertRow tbl v) vs) i = true
      exact ih _ (hasId_upsertRow tbl v i h)

lemma hasId_upsertMany_mem (v : TxRow) :
    ∀ (values tbl : List TxRow), v ∈ values →
      hasId (upsertMany tbl values) v.rowId = true := by
  intro values
  induction values with
  | nil => intro tbl hv; cases hv
  | cons u vs ih =>
      intro tbl hv
      rcases List.mem_cons.mp hv with rfl | hmem
      · show hasId (upsertMany (upsertRow tbl v) vs) v.rowId = true
        exact hasId_upsertMany v.rowId vs _ (hasId_upsertRow_self tbl v)
      · show hasId (upsertMany (upsertRow tbl u) vs) v.rowId = true
        exact ih _ hmem

lemma upsertMany_fixed (tbl : List TxRow) :
    ∀ values : List TxRow, (∀ v ∈ values, hasId tbl v.rowId = true) →
      upsertMany tbl values = tbl := by
  intro values
  induction values with
  | nil => intro _; rfl
  | cons v vs ih =>
      intro h
      show vs.foldl upsertRow (upsertRow tbl v) = tbl
      rw [upsertRow_conflict tbl v (h v (by simp))]
      exact ih fun u hu => h u (by simp [hu])

/-! Claim C10. -/

/-- C10: upsertMany is idempotent: running it a second time with the same
inserts leaves the table exactly as after the first run (and the model
raises no error), because every value now conflicts on its `_id` and the
conflict branch only reassigns the `data` column instead of inserting a
duplicate row. -/
theorem c10_upsertMany_idempotent (tbl values : List TxRow) :
    upsertMany (upsertMany tbl values) values = upsertMany tbl values :=
  upsertMany_fixed _ values fun v hv => hasId_upsertMany_mem v values tbl hv

end TxRepo
